import Mathlib

/-!
Shallow embedding of the `Container` dependency-injection registry from
`src/container.ts` (the permissive variant: missing registrations default to
an empty argument list and the recursive `get` sits inside the try/catch) and
`src/index.ts` (the strict variant: operations on unregistered identities
throw `ContainerError`, and the constructibility probe `new arg()` is the only
expression whose errors are swallowed).

JS runtime model: values are literals, plain functions, class identities, or
references to heap objects.  `new C(...args)` either throws (the class's own
constructor failing, modelled by a per-class predicate on the argument list)
or allocates a fresh heap object whose fields are the argument list.  The two
`WeakMap`s (`registry` and `instances`) are association lists keyed by
identity.  Exceptions do not roll back state, so every operation returns its
result (`Except`) together with the state it leaves behind.  Recursion depth
of `get` is bounded by explicit fuel; running out of fuel models stack
exhaustion on cyclic dependency graphs.
-/

/-- JS primitive literals that can appear as constructor arguments. -/
inductive Lit where
  | int : Int → Lit
  | str : String → Lit
  | bool : Bool → Lit
  | undef : Lit
deriving DecidableEq, Repr

/-- Runtime values: literals, plain (non-class) functions, class identities
(constructor functions), and references to heap-allocated objects. -/
inductive Value where
  | lit : Lit → Value
  | func : Nat → Value
  | cls : Nat → Value
  | obj : Nat → Value
deriving DecidableEq, Repr

/-- JS truthiness of a value (`if (existing)`); `undefined` and falsy
primitives are false, any function or object is true. -/
def truthy : Value → Bool
  | .lit (.int n) => n != 0
  | .lit (.str s) => s != ""
  | .lit (.bool b) => b
  | .lit .undef => false
  | .func _ => true
  | .cls _ => true
  | .obj _ => true

/-- `typeof arg == "function"`: true for plain functions and for classes
(a class is a constructor function in JS). -/
def typeofFunction : Value → Bool
  | .func _ => true
  | .cls _ => true
  | _ => false

/-- A heap object: the class it was constructed from and its fields (the
arguments its constructor received, as the test classes store them). -/
structure Obj where
  cls : Nat
  fields : List Value
deriving DecidableEq, Repr

/-- Behaviour of one class: its display name (`className.name`) and the
predicate saying on which argument lists its own constructor throws. -/
structure ClassSig where
  name : String
  throwsOn : List Value → Bool

/-- The ambient class environment, indexed by class identity. -/
def Env : Type := Nat → ClassSig

/-- Container state: the two `WeakMap`s (`registry` for recipes, `instances`
for singleton instances) plus the object heap.  Heap addresses are indices
into `heap`; allocation appends. -/
structure State where
  registry : List (Value × List Value)
  instances : List (Value × Value)
  heap : List Obj
deriving DecidableEq, Repr

/-- `WeakMap.get`: first binding for the key, if any. -/
def alookup {α : Type} : List (Value × α) → Value → Option α
  | [], _ => none
  | p :: rest, k => if p.1 = k then some p.2 else alookup rest k

/-- `WeakMap.set`: replace the binding for the key, or append one. -/
def mset {α : Type} : List (Value × α) → Value → α → List (Value × α)
  | [], k, v => [(k, v)]
  | p :: rest, k, v => if p.1 = k then (k, v) :: rest else p :: mset rest k v

/-- `WeakMap.delete`: drop every binding for the key. -/
def adelete {α : Type} : List (Value × α) → Value → List (Value × α)
  | [], _ => []
  | p :: rest, k => if p.1 = k then adelete rest k else p :: adelete rest k

/-- Errors surfaced by the model: the registry's own `ContainerError`
(carrying the message's display name), a `TypeError` from `new`-ing a
non-constructor, a target class's own constructor throwing, and stack
exhaustion from unbounded recursion. -/
inductive Err where
  | notRegistered : String → Err
  | typeError : Err
  | ctorThrew : Nat → Err
  | stackOverflow : Err
deriving DecidableEq, Repr

/-- `className.name`, used in the `ContainerError` message. -/
def displayName (env : Env) : Value → String
  | .cls c => (env c).name
  | _ => ""

/-- `new k(...args)`: a class either throws (its own constructor failing) or
allocates a fresh object whose fields are the arguments; `new` on a
non-constructor throws `TypeError`. -/
def constructNew (env : Env) (st : State) (k : Value) (args : List Value) :
    Except Err Value × State :=
  match k with
  | .cls c =>
    if (env c).throwsOn args then (.error (.ctorThrew c), st)
    else (.ok (.obj st.heap.length),
          { st with heap := st.heap ++ [⟨c, args⟩] })
  | _ => (.error .typeError, st)

/-- Mutate field `i` of the object at address `a` (a no-op on a dangling
address or out-of-range index, as `List.set` is). -/
def setField (st : State) (a i : Nat) (v : Value) : State :=
  match st.heap[a]? with
  | none => st
  | some o => { st with heap := st.heap.set a ⟨o.cls, o.fields.set i v⟩ }

/-- Read field `i` of the object at address `a`. -/
def readField (st : State) (a i : Nat) : Option Value :=
  match st.heap[a]? with
  | none => none
  | some o => o.fields[i]?

/-- `Container.add(newClass, ...args)`: store the recipe, overwriting any
prior one.  Identical in both variants; returns `this` for chaining. -/
def Container.add (st : State) (k : Value) (args : List Value) : State :=
  { st with registry := mset st.registry k args }

/-- `Container.addStatic(className, ...args)`: immediately `new` the class
with the raw stored arguments and record the instance in `instances`.
Identical in both variants. -/
def Container.addStatic (env : Env) (st : State) (k : Value)
    (args : List Value) : Except Err Unit × State :=
  match constructNew env st k args with
  | (.error e, st1) => (.error e, st1)
  | (.ok v, st1) => (.ok (), { st1 with instances := mset st1.instances k v })

/-- Modelled from the spec: `has(identity)` is a pure existence check on the
recipe table that never fails; its body is not under `src/` (only its tests
and its callers in `appendArgs`/`delete` are). -/
def Container.has (st : State) (k : Value) : Bool :=
  (alookup st.registry k).isSome

/-- Modelled from the spec: `hasStatic(identity)` (the spec's
`hasSingleton`) is a pure existence check on the singleton-instance table
that never fails; its body is not under `src/` (only its tests are). -/
def Container.hasStatic (st : State) (k : Value) : Bool :=
  (alookup st.instances k).isSome

/-- `prepareArgs`-style traversal shared by both variants: run `prep` over
the recipe's arguments left to right, threading the state, propagating the
first uncaught error (as `Array.prototype.map` does when the callback
throws). -/
def prepList (prep : State → Value → Except Err Value × State) :
    State → List Value → Except Err (List Value) × State
  | st, [] => (.ok [], st)
  | st, a :: as =>
    match prep st a with
    | (.error e, st1) => (.error e, st1)
    | (.ok v, st1) =>
      match prepList prep st1 as with
      | (.error e, st2) => (.error e, st2)
      | (.ok vs, st2) => (.ok (v :: vs), st2)

namespace Strict

/-- One argument of the strict variant's `get` (src/index.ts): non-functions
pass through; for a function, `try { new arg() } catch { return arg }` is the
constructibility probe — only the probe's own error is swallowed — and on a
successful probe the recursive `this.get(arg)` runs outside any try, so its
errors propagate. -/
def prepOne (recur : State → Value → Except Err Value × State) (env : Env)
    (st : State) (a : Value) : Except Err Value × State :=
  if typeofFunction a then
    match constructNew env st a [] with
    | (.error _, st1) => (.ok a, st1)
    | (.ok _, st1) => recur st1 a
  else (.ok a, st)

/-- The strict variant's `get` (src/index.ts): return a truthy stored
instance if present; otherwise a missing recipe throws `ContainerError`;
otherwise prepare the arguments and `new` the target. -/
def get (env : Env) : Nat → State → Value → Except Err Value × State
  | 0, st, _ => (.error .stackOverflow, st)
  | fuel + 1, st, k =>
    let existing := (alookup st.instances k).getD (.lit .undef)
    if truthy existing then (.ok existing, st)
    else
      match alookup st.registry k with
      | none => (.error (.notRegistered (displayName env k)), st)
      | some args =>
        match prepList (prepOne (get env fuel) env) st args with
        | (.error e, st1) => (.error e, st1)
        | (.ok prepared, st1) => constructNew env st1 k prepared

/-- The strict variant's `appendArgs`: `ContainerError` when the identity has
no recipe, else push the new arguments onto the stored list. -/
def appendArgs (env : Env) (st : State) (k : Value) (newArgs : List Value) :
    Except Err Unit × State :=
  match alookup st.registry k with
  | none => (.error (.notRegistered (displayName env k)), st)
  | some args =>
    (.ok (), { st with registry := mset st.registry k (args ++ newArgs) })

/-- The strict variant's `delete`: `ContainerError` when the identity has no
recipe, else remove the recipe. -/
def delete (env : Env) (st : State) (k : Value) : Except Err Unit × State :=
  if Container.has st k then (.ok (), { st with registry := adelete st.registry k })
  else (.error (.notRegistered (displayName env k)), st)

end Strict

namespace Permissive

/-- One argument of the permissive variant's `get` (src/container.ts):
non-functions pass through; for a function the whole of
`registered = this.get(arg); return registered ? registered : new arg()` sits
inside one try, whose catch returns the raw argument — so errors from the
recursive `get` are swallowed too. -/
def prepOne (recur : State → Value → Except Err Value × State) (env : Env)
    (st : State) (a : Value) : Except Err Value × State :=
  if typeofFunction a then
    match recur st a with
    | (.error _, st1) => (.ok a, st1)
    | (.ok registered, st1) =>
      if truthy registered then (.ok registered, st1)
      else
        match constructNew env st1 a [] with
        | (.error _, st2) => (.ok a, st2)
        | (.ok v, st2) => (.ok v, st2)
  else (.ok a, st)

/-- The permissive variant's `get` (src/container.ts): return a truthy stored
instance if present; otherwise a missing recipe falls back to `[]`; prepare
the arguments and `new` the target. -/
def get (env : Env) : Nat → State → Value → Except Err Value × State
  | 0, st, _ => (.error .stackOverflow, st)
  | fuel + 1, st, k =>
    let existing := (alookup st.instances k).getD (.lit .undef)
    if truthy existing then (.ok existing, st)
    else
      match prepList (prepOne (get env fuel) env) st
          ((alookup st.registry k).getD []) with
      | (.error e, st1) => (.error e, st1)
      | (.ok prepared, st1) => constructNew env st1 k prepared

/-- The permissive variant's `appendArgs`: a missing recipe is treated as
empty, then the new arguments are pushed and stored back. -/
def appendArgs (st : State) (k : Value) (newArgs : List Value) : State :=
  { st with registry := mset st.registry k ((alookup st.registry k).getD [] ++ newArgs) }

/-- The permissive variant's `replaceArgs`: unconditionally overwrite the
recipe. -/
def replaceArgs (st : State) (k : Value) (args : List Value) : State :=
  { st with registry := mset st.registry k args }

/-- The permissive variant's `delete`: remove the recipe, a no-op when
absent; the `instances` table is untouched. -/
def delete (st : State) (k : Value) : State :=
  { st with registry := adelete st.registry k }

end Permissive

deriving instance DecidableEq for Except

/-- Every value stored in the `instances` table is a heap object.  This holds
of every state the API can build, since `addStatic` only ever stores the
result of a successful `new`. -/
def GoodInstances (st : State) : Prop :=
  ∀ k v, alookup st.instances k = some v → ∃ a, v = .obj a

/-- Concrete class environment where no constructor ever throws. -/
def envA : Env := fun c =>
  if c = 0 then ⟨"Main", fun _ => false⟩
  else if c = 1 then ⟨"Dep", fun _ => false⟩
  else ⟨"Other", fun _ => false⟩

/-- Concrete class environment where class 1's constructor throws on every
non-empty argument list (so the zero-argument probe succeeds but real
construction fails). -/
def envB : Env := fun c =>
  if c = 1 then ⟨"Dep", fun args => args != []⟩
  else ⟨"Main", fun _ => false⟩

/-- Concrete state: `Main` depends on `Dep`, `Dep`'s recipe is `[7]`. -/
def stB : State :=
  { registry := [(.cls 0, [.cls 1]), (.cls 1, [.lit (.int 7)])],
    instances := [], heap := [] }

/-- Concrete state: only `Dep` (class 1) is recipe-registered. -/
def stC1 : State :=
  { registry := [(.cls 1, [.lit (.int 7)])], instances := [], heap := [] }

/-- Concrete state: `Main`'s recipe is `["bar"]`. -/
def stC3a : State :=
  { registry := [(.cls 0, [.lit (.str "bar")])], instances := [], heap := [] }

/-- Concrete state after `addStatic(Main, "foo")` on `stC3a`. -/
def stC3b : State :=
  { registry := [(.cls 0, [.lit (.str "bar")])],
    instances := [(.cls 0, .obj 0)],
    heap := [⟨0, [.lit (.str "foo")]⟩] }

/-- Concrete state: `Main`'s recipe is `[Dep, 5]`, `Dep`'s recipe is `[]`. -/
def stC4 : State :=
  { registry := [(.cls 0, [.cls 1, .lit (.int 5)]), (.cls 1, [])],
    instances := [], heap := [] }

/-- Concrete state after `Strict.get` resolves `Main` from `stC4`: the probe
instance, the injected `Dep` instance, and the `Main` instance. -/
def stC4R : State :=
  { registry := [(.cls 0, [.cls 1, .lit (.int 5)]), (.cls 1, [])],
    instances := [],
    heap := [⟨1, []⟩, ⟨1, []⟩, ⟨0, [.obj 1, .lit (.int 5)]⟩] }

/-- Concrete state: `Main`'s recipe is `[3]`. -/
def stC5 : State :=
  { registry := [(.cls 0, [.lit (.int 3)])], instances := [], heap := [] }

/-- `stC5` after one resolve of `Main`. -/
def stC5a : State :=
  { registry := [(.cls 0, [.lit (.int 3)])], instances := [],
    heap := [⟨0, [.lit (.int 3)]⟩] }

/-- `stC5` after two resolves of `Main`. -/
def stC5b : State :=
  { registry := [(.cls 0, [.lit (.int 3)])], instances := [],
    heap := [⟨0, [.lit (.int 3)]⟩, ⟨0, [.lit (.int 3)]⟩] }

/-- The empty container. -/
def stEmpty : State :=
  { registry := [], instances := [], heap := [] }

/-- Concrete state: `Main`'s recipe is a plain callback plus a string. -/
def stC8 : State :=
  { registry := [(.cls 0, [.func 9, .lit (.str "cb")])],
    instances := [], heap := [] }

/-- Concrete state: `Main` recipe-registered, `Dep` singleton-bound to the
object at address 0. -/
def stC9 : State :=
  { registry := [(.cls 0, [.lit (.int 1)]), (.cls 1, [])],
    instances := [(.cls 1, .obj 0)],
    heap := [⟨1, []⟩] }

theorem alookup_mset_self {α : Type} (m : List (Value × α)) (k : Value) (v : α) :
    alookup (mset m k v) k = some v := by
  induction m with
  | nil => simp [mset, alookup]
  | cons p rest ih =>
    by_cases h : p.1 = k
    · simp [mset, h, alookup]
    · simp [mset, h, alookup, ih]

theorem alookup_adelete_self {α : Type} (m : List (Value × α)) (k : Value) :
    alookup (adelete m k) k = none := by
  induction m with
  | nil => simp [adelete, alookup]
  | cons p rest ih =>
    by_cases h : p.1 = k
    · simp [adelete, h, ih]
    · simp [adelete, h, alookup, ih]

theorem alookup_adelete_ne {α : Type} (m : List (Value × α)) (k k' : Value)
    (h : k' ≠ k) : alookup (adelete m k) k' = alookup m k' := by
  induction m with
  | nil => simp [adelete]
  | cons p rest ih =>
    by_cases hp : p.1 = k
    · subst hp
      have e1 : adelete (p :: rest) p.1 = adelete rest p.1 := by
        simp [adelete]
      have e2 : alookup (p :: rest) k' = alookup rest k' := by
        simp only [alookup]
        exact if_neg (fun hk => h hk.symm)
      rw [e1, ih, e2]
    · simp [adelete, hp, alookup, ih]

theorem setField_registry (st : State) (a i : Nat) (v : Value) :
    (setField st a i v).registry = st.registry := by
  unfold setField
  split <;> rfl

theorem setField_instances (st : State) (a i : Nat) (v : Value) :
    (setField st a i v).instances = st.instances := by
  unfold setField
  split <;> rfl

theorem readField_setField_self (st : State) (a i : Nat) (v : Value) (o : Obj)
    (h : st.heap[a]? = some o) (hi : i < o.fields.length) :
    readField (setField st a i v) a i = some v := by
  have ha : a < st.heap.length := by
    by_contra hcon
    rw [List.getElem?_eq_none (by omega)] at h
    cases h
  unfold setField readField
  rw [h]
  simp [List.getElem?_set_eq_of_lt, ha, hi]

theorem readField_setField_ne (st : State) (a b i j : Nat) (v : Value)
    (hab : a ≠ b) : readField (setField st a i v) b j = readField st b j := by
  unfold setField readField
  cases h : st.heap[a]? with
  | none => rfl
  | some o => simp [List.getElem?_set_ne hab]

theorem constructNew_tables (env : Env) (st : State) (k : Value)
    (args : List Value) :
    ((constructNew env st k args).2).registry = st.registry ∧
    ((constructNew env st k args).2).instances = st.instances := by
  cases k with
  | cls c =>
    simp only [constructNew]
    split <;> exact ⟨rfl, rfl⟩
  | lit l => exact ⟨rfl, rfl⟩
  | func f => exact ⟨rfl, rfl⟩
  | obj a => exact ⟨rfl, rfl⟩

theorem constructNew_heap_le (env : Env) (st : State) (k : Value)
    (args : List Value) :
    st.heap.length ≤ ((constructNew env st k args).2).heap.length := by
  cases k with
  | cls c =>
    simp only [constructNew]
    split
    · exact Nat.le_refl _
    · simp
  | lit l => exact Nat.le_refl _
  | func f => exact Nat.le_refl _
  | obj a => exact Nat.le_refl _

theorem constructNew_ok (env : Env) (st : State) (k : Value)
    (args : List Value) (v : Value) (st' : State)
    (h : constructNew env st k args = (.ok v, st')) :
    ∃ c, k = .cls c ∧ (env c).throwsOn args = false ∧
      v = .obj st.heap.length ∧
      st' = { st with heap := st.heap ++ [⟨c, args⟩] } := by
  cases k with
  | cls c =>
    simp only [constructNew] at h
    split at h
    · simp at h
    · rename_i hth
      simp only [Prod.mk.injEq, Except.ok.injEq] at h
      exact ⟨c, rfl, by simpa using hth, h.1.symm, h.2.symm⟩
  | lit l => simp [constructNew] at h
  | func f => simp [constructNew] at h
  | obj a => simp [constructNew] at h

theorem prepList_tables
    (prep : State → Value → Except Err Value × State)
    (hp : ∀ s a, ((prep s a).2).registry = s.registry ∧
      ((prep s a).2).instances = s.instances) :
    ∀ st args, ((prepList prep st args).2).registry = st.registry ∧
      ((prepList prep st args).2).instances = st.instances := by
  intro st args
  induction args generalizing st with
  | nil => exact ⟨rfl, rfl⟩
  | cons a as ih =>
    simp only [prepList]
    split
    · rename_i e s1 heq
      have h1 := hp st a
      rw [heq] at h1
      exact h1
    · rename_i v s1 heq
      have h1 := hp st a
      rw [heq] at h1
      split
      · rename_i e2 s2 heq2
        have h2 := ih s1
        rw [heq2] at h2
        exact ⟨h2.1.trans h1.1, h2.2.trans h1.2⟩
      · rename_i vs s2 heq2
        have h2 := ih s1
        rw [heq2] at h2
        exact ⟨h2.1.trans h1.1, h2.2.trans h1.2⟩

theorem prepList_heap_le
    (prep : State → Value → Except Err Value × State)
    (hp : ∀ s a, s.heap.length ≤ ((prep s a).2).heap.length) :
    ∀ st args, st.heap.length ≤ ((prepList prep st args).2).heap.length := by
  intro st args
  induction args generalizing st with
  | nil => exact Nat.le_refl _
  | cons a as ih =>
    simp only [prepList]
    split
    · rename_i e s1 heq
      have h1 := hp st a
      rw [heq] at h1
      exact h1
    · rename_i v s1 heq
      have h1 := hp st a
      rw [heq] at h1
      split
      · rename_i e2 s2 heq2
        have h2 := ih s1
        rw [heq2] at h2
        exact h1.trans h2
      · rename_i vs s2 heq2
        have h2 := ih s1
        rw [heq2] at h2
        exact h1.trans h2

theorem prepList_forall2
    (prep : State → Value → Except Err Value × State)
    (P : State → Prop)
    (hP : ∀ s a r s', prep s a = (r, s') → P s → P s') :
    ∀ st args vs st', P st → prepList prep st args = (.ok vs, st') →
      List.Forall₂ (fun a v => ∃ s1 s2, P s1 ∧ prep s1 a = (.ok v, s2))
        args vs := by
  intro st args
  induction args generalizing st with
  | nil =>
    intro vs st' hp h
    simp only [prepList, Prod.mk.injEq, Except.ok.injEq] at h
    cases h.1
    exact List.Forall₂.nil
  | cons a as ih =>
    intro vs st' hp h
    simp only [prepList] at h
    split at h
    · simp at h
    · rename_i v s1 heq
      split at h
      · simp at h
      · rename_i vs1 s2 heq2
        simp only [Prod.mk.injEq, Except.ok.injEq] at h
        cases h.1
        exact List.Forall₂.cons ⟨st, s1, hp, heq⟩
          (ih s1 vs1 s2 (hP st a (.ok v) s1 heq hp) heq2)

theorem Strict.prepOne_tables
    (recur : State → Value → Except Err Value × State) (env : Env)
    (hr : ∀ s a, ((recur s a).2).registry = s.registry ∧
      ((recur s a).2).instances = s.instances) :
    ∀ s a, ((Strict.prepOne recur env s a).2).registry = s.registry ∧
      ((Strict.prepOne recur env s a).2).instances = s.instances := by
  intro s a
  unfold Strict.prepOne
  split
  · have hc := constructNew_tables env s a []
    split
    · rename_i e s1 heq
      rw [heq] at hc
      exact hc
    · rename_i v s1 heq
      rw [heq] at hc
      have h2 := hr s1 a
      exact ⟨h2.1.trans hc.1, h2.2.trans hc.2⟩
  · exact ⟨rfl, rfl⟩

theorem Strict.get_tables (env : Env) :
    ∀ fuel st k, ((Strict.get env fuel st k).2).registry = st.registry ∧
      ((Strict.get env fuel st k).2).instances = st.instances := by
  intro fuel
  induction fuel with
  | zero => intro st k; exact ⟨rfl, rfl⟩
  | succ f ih =>
    intro st k
    simp only [Strict.get]
    split
    · exact ⟨rfl, rfl⟩
    · split
      · exact ⟨rfl, rfl⟩
      · rename_i args heq
        have hp := prepList_tables (Strict.prepOne (Strict.get env f) env)
          (Strict.prepOne_tables (Strict.get env f) env ih) st args
        split
        · rename_i e s1 heq2
          rw [heq2] at hp
          exact hp
        · rename_i vs s1 heq2
          rw [heq2] at hp
          have hc := constructNew_tables env s1 k vs
          exact ⟨hc.1.trans hp.1, hc.2.trans hp.2⟩

theorem Permissive.prepOne_tables_p
    (recur : State → Value → Except Err Value × State) (env : Env)
    (hr : ∀ s a, ((recur s a).2).registry = s.registry ∧
      ((recur s a).2).instances = s.instances) :
    ∀ s a, ((Permissive.prepOne recur env s a).2).registry = s.registry ∧
      ((Permissive.prepOne recur env s a).2).instances = s.instances := by
  intro s a
  unfold Permissive.prepOne
  split
  · have h1 := hr s a
    split
    · rename_i e s1 heq
      rw [heq] at h1
      exact h1
    · rename_i v s1 heq
      rw [heq] at h1
      split
      · exact h1
      · have hc := constructNew_tables env s1 a []
        split
        · rename_i e2 s2 heq2
          rw [heq2] at hc
          exact ⟨hc.1.trans h1.1, hc.2.trans h1.2⟩
        · rename_i v2 s2 heq2
          rw [heq2] at hc
          exact ⟨hc.1.trans h1.1, hc.2.trans h1.2⟩
  · exact ⟨rfl, rfl⟩

theorem Permissive.get_tables_p (env : Env) :
    ∀ fuel st k, ((Permissive.get env fuel st k).2).registry = st.registry ∧
      ((Permissive.get env fuel st k).2).instances = st.instances := by
  intro fuel
  induction fuel with
  | zero => intro st k; exact ⟨rfl, rfl⟩
  | succ f ih =>
    intro st k
    simp only [Permissive.get]
    split
    · exact ⟨rfl, rfl⟩
    · have hp := prepList_tables (Permissive.prepOne (Permissive.get env f) env)
        (Permissive.prepOne_tables_p (Permissive.get env f) env ih) st
        ((alookup st.registry k).getD [])
      split
      · rename_i e s1 heq2
        rw [heq2] at hp
        exact hp
      · rename_i vs s1 heq2
        rw [heq2] at hp
        have hc := constructNew_tables env s1 k vs
        exact ⟨hc.1.trans hp.1, hc.2.trans hp.2⟩

theorem Permissive.prepOne_heap_le
    (recur : State → Value → Except Err Value × State) (env : Env)
    (hr : ∀ s a, s.heap.length ≤ ((recur s a).2).heap.length) :
    ∀ s a, s.heap.length ≤ ((Permissive.prepOne recur env s a).2).heap.length := by
  intro s a
  unfold Permissive.prepOne
  split
  · have h1 := hr s a
    split
    · rename_i e s1 heq
      rw [heq] at h1
      exact h1
    · rename_i v s1 heq
      rw [heq] at h1
      split
      · exact h1
      · have hc := constructNew_heap_le env s1 a []
        split
        · rename_i e2 s2 heq2
          rw [heq2] at hc
          exact h1.trans hc
        · rename_i v2 s2 heq2
          rw [heq2] at hc
          exact h1.trans hc
  · exact Nat.le_refl _

theorem Permissive.get_heap_le (env : Env) :
    ∀ fuel st k, st.heap.length ≤ ((Permissive.get env fuel st k).2).heap.length := by
  intro fuel
  induction fuel with
  | zero => intro st k; exact Nat.le_refl _
  | succ f ih =>
    intro st k
    simp only [Permissive.get]
    split
    · exact Nat.le_refl _
    · have hp := prepList_heap_le (Permissive.prepOne (Permissive.get env f) env)
        (Permissive.prepOne_heap_le (Permissive.get env f) env ih) st
        ((alookup st.registry k).getD [])
      split
      · rename_i e s1 heq2
        rw [heq2] at hp
        exact hp
      · rename_i vs s1 heq2
        rw [heq2] at hp
        have hc := constructNew_heap_le env s1 k vs
        exact hp.trans hc

theorem GoodInstances_eq (st st' : State) (h : st'.instances = st.instances)
    (hG : GoodInstances st) : GoodInstances st' := by
  intro k v hv
  rw [h] at hv
  exact hG k v hv

theorem Strict.get_ok_obj (env : Env) (fuel : Nat) (st : State) (k v : Value)
    (st' : State) (hG : GoodInstances st)
    (h : Strict.get env fuel st k = (.ok v, st')) : ∃ b, v = .obj b := by
  cases fuel with
  | zero => simp [Strict.get] at h
  | succ f =>
    simp only [Strict.get] at h
    split at h
    · rename_i ht
      simp only [Prod.mk.injEq, Except.ok.injEq] at h
      obtain ⟨hv, -⟩ := h
      subst hv
      cases hl : alookup st.instances k with
      | none => rw [hl] at ht; simp [truthy] at ht
      | some w =>
        obtain ⟨b, hb⟩ := hG k w hl
        exact ⟨b, by simp [hl, hb]⟩
    · split at h
      · simp at h
      · split at h
        · simp at h
        · rename_i vs s1 heq2
          obtain ⟨c, -, -, hv, -⟩ := constructNew_ok env s1 k vs v st' h
          exact ⟨s1.heap.length, hv⟩

theorem Strict.prepOne_passthrough
    (recur : State → Value → Except Err Value × State) (env : Env)
    (s : State) (a : Value) (h : typeofFunction a = false) :
    Strict.prepOne recur env s a = (.ok a, s) := by
  simp [Strict.prepOne, h]

theorem Strict.prepOne_func
    (recur : State → Value → Except Err Value × State) (env : Env)
    (s : State) (fn : Nat) :
    Strict.prepOne recur env s (.func fn) = (.ok (.func fn), s) := by
  simp [Strict.prepOne, typeofFunction, constructNew]

theorem Strict.prepOne_char (env : Env) (f : Nat) (s : State) (a v : Value)
    (s2 : State) (hG : GoodInstances s)
    (h : Strict.prepOne (Strict.get env f) env s a = (.ok v, s2)) :
    (typeofFunction a = false → v = a) ∧
    (∀ d, a = .cls d → (env d).throwsOn [] = false → ∃ b, v = .obj b) := by
  by_cases hta : typeofFunction a = true
  · constructor
    · intro hc
      rw [hc] at hta
      cases hta
    · intro d hd hpr
      subst hd
      simp only [Strict.prepOne, typeofFunction, if_true] at h
      have hcn : constructNew env s (.cls d) []
          = (.ok (.obj s.heap.length), { s with heap := s.heap ++ [⟨d, []⟩] }) := by
        simp [constructNew, hpr]
      simp only [hcn] at h
      exact Strict.get_ok_obj env f
        { s with heap := s.heap ++ [⟨d, []⟩] } (.cls d) v s2
        (fun k w hw => hG k w hw) h
  · have hta' : typeofFunction a = false := by simpa using hta
    refine ⟨fun _ => ?_, fun d hd => ?_⟩
    · rw [Strict.prepOne_passthrough _ env s a hta'] at h
      simp only [Prod.mk.injEq, Except.ok.injEq] at h
      exact h.1.symm
    · subst hd
      simp [typeofFunction] at hta'

theorem Permissive.get_singleton_hit (env : Env) (fuel : Nat) (st : State)
    (k v : Value) (hl : alookup st.instances k = some v)
    (ht : truthy v = true) :
    Permissive.get env (fuel + 1) st k = (.ok v, st) := by
  simp [Permissive.get, hl, ht]

/-- Claim C1 (code bug witnessed): with `Dep` (class 1) recipe-registered,
`addStatic(Main, Dep)` constructs and stores the singleton by passing the
raw `Dep` identity straight to `Main`'s constructor — field 0 of the stored
instance is the class value itself, not a resolved `Dep` instance — even
though the spec and `addStatic`'s own doc comment promise identity-valued
arguments are resolved against the current registry state. -/
theorem C1_thm :
    Container.has stC1 (.cls 1) = true ∧
    (Container.addStatic envA stC1 (.cls 0) [.cls 1]).1 = .ok () ∧
    alookup ((Container.addStatic envA stC1 (.cls 0) [.cls 1]).2).instances
      (.cls 0) = some (.obj 0) ∧
    readField ((Container.addStatic envA stC1 (.cls 0) [.cls 1]).2) 0 0
      = some (.cls 1) := by
  decide

/-- Claim C6: for an identity with no recipe and no singleton binding,
`has` and `hasStatic` return false, and the strict variant's `get` fails
with the `ContainerError` carrying the class's display name. -/
theorem C6_thm (env : Env) (f : Nat) (st : State) (c : Nat)
    (h1 : alookup st.registry (.cls c) = none)
    (h2 : alookup st.instances (.cls c) = none) :
    Container.has st (.cls c) = false ∧
    Container.hasStatic st (.cls c) = false ∧
    Strict.get env (f + 1) st (.cls c)
      = (.error (.notRegistered (env c).name), st) := by
  refine ⟨?_, ?_, ?_⟩
  · simp [Container.has, h1]
  · simp [Container.hasStatic, h2]
  · simp [Strict.get, h1, h2, truthy, displayName]

/-- Claim C6 witness: the empty container at class 2 ("Other"). -/
theorem C6_witness :
    alookup stEmpty.registry (.cls 2) = none ∧
    alookup stEmpty.instances (.cls 2) = none ∧
    (Container.has stEmpty (.cls 2) = false ∧
     Container.hasStatic stEmpty (.cls 2) = false ∧
     Strict.get envA 1 stEmpty (.cls 2)
       = (.error (.notRegistered (envA 2).name), stEmpty)) :=
  ⟨by decide, by decide,
   C6_thm envA 0 stEmpty 2 (by decide) (by decide)⟩

/-- Claim C9: the permissive `delete` removes only the identity's recipe:
the singleton-instance table is untouched (for every identity), a
singleton-bound identity still answers `hasStatic` and still resolves to the
very same stored instance after the delete, and every other identity's
recipe is untouched. -/
theorem C9_thm (env : Env) (f : Nat) (st : State) (c d : Value) (a : Nat)
    (h : alookup st.instances d = some (.obj a)) :
    (Permissive.delete st c).instances = st.instances ∧
    (∀ e, Container.hasStatic (Permissive.delete st c) e
      = Container.hasStatic st e) ∧
    Container.hasStatic (Permissive.delete st c) d = true ∧
    alookup (Permissive.delete st c).registry c = none ∧
    (∀ e, e ≠ c → alookup (Permissive.delete st c).registry e
      = alookup st.registry e) ∧
    Permissive.get env (f + 1) (Permissive.delete st c) d
      = (.ok (.obj a), Permissive.delete st c) ∧
    Permissive.get env (f + 1) st d = (.ok (.obj a), st) := by
  refine ⟨rfl, fun e => rfl, ?_, ?_, ?_, ?_, ?_⟩
  · simp [Container.hasStatic, Permissive.delete, h]
  · exact alookup_adelete_self st.registry c
  · intro e he
    exact alookup_adelete_ne st.registry c e he
  · exact Permissive.get_singleton_hit env f (Permissive.delete st c) d
      (.obj a) h rfl
  · exact Permissive.get_singleton_hit env f st d (.obj a) h rfl

/-- Claim C9 witness: deleting `Main`'s recipe leaves `Dep`'s singleton
binding and instance untouched. -/
theorem C9_witness :
    alookup stC9.instances (.cls 1) = some (.obj 0) ∧
    ((Permissive.delete stC9 (.cls 0)).instances = stC9.instances ∧
     (∀ e, Container.hasStatic (Permissive.delete stC9 (.cls 0)) e
       = Container.hasStatic stC9 e) ∧
     Container.hasStatic (Permissive.delete stC9 (.cls 0)) (.cls 1) = true ∧
     alookup (Permissive.delete stC9 (.cls 0)).registry (.cls 0) = none ∧
     (∀ e, e ≠ (.cls 0) →
       alookup (Permissive.delete stC9 (.cls 0)).registry e
         = alookup stC9.registry e) ∧
     Permissive.get envA 1 (Permissive.delete stC9 (.cls 0)) (.cls 1)
       = (.ok (.obj 0), Permissive.delete stC9 (.cls 0)) ∧
     Permissive.get envA 1 stC9 (.cls 1) = (.ok (.obj 0), stC9)) :=
  ⟨by decide, C9_thm envA 0 stC9 (.cls 0) (.cls 1) 0 (by decide)⟩

/-- Claim C10: `get` is read-only on the registry state in both variants —
whatever it returns, the recipe table and the singleton-instance table of
the resulting state are exactly the input's. -/
theorem C10_thm :
    ∀ (env : Env) (fuel : Nat) (st : State) (k : Value),
      ((Strict.get env fuel st k).2).registry = st.registry ∧
      ((Strict.get env fuel st k).2).instances = st.instances ∧
      ((Permissive.get env fuel st k).2).registry = st.registry ∧
      ((Permissive.get env fuel st k).2).instances = st.instances := by
  intro env fuel st k
  exact ⟨(Strict.get_tables env fuel st k).1,
    (Strict.get_tables env fuel st k).2,
    (Permissive.get_tables_p env fuel st k).1,
    (Permissive.get_tables_p env fuel st k).2⟩

/-- Claim C2, counterexample to the claim as stated: in the permissive
variant (src/container.ts), `Dep` (class 1) is recipe-registered and its own
constructor throws on its prepared argument list `[7]` (while the
zero-argument probe succeeds), yet `resolve(Main)` does not surface that
error: the try/catch around the recursive `get` swallows it and `Main` is
constructed with the raw `Dep` identity as argument. -/
theorem C2_counterexample :
    alookup stB.registry (.cls 1) = some [.lit (.int 7)] ∧
    (envB 1).throwsOn [.lit (.int 7)] = true ∧
    (envB 1).throwsOn [] = false ∧
    (Permissive.get envB 4 stB (.cls 0)).1 = .ok (.obj 0) ∧
    readField ((Permissive.get envB 4 stB (.cls 0)).2) 0 0
      = some (.cls 1) := by
  decide

/-- Claim C2 (as amended): in the strict variant (src/index.ts), when `Main`
(class `c`) has recipe `[Dep]` and registered `Dep` (class `d`) passes the
zero-argument constructibility probe but `Dep`'s own constructor throws on
its prepared recipe arguments, that construction-time error propagates out
of `resolve(Main)` unchanged — it is not caught or wrapped; only the probe's
own errors are swallowed. -/
theorem C2_thm (env : Env) (f : Nat) (st : State) (c d : Nat) (rv : Lit)
    (hic : alookup st.instances (.cls c) = none)
    (hid : alookup st.instances (.cls d) = none)
    (hrc : alookup st.registry (.cls c) = some [.cls d])
    (hrd : alookup st.registry (.cls d) = some [.lit rv])
    (hprobe : (env d).throwsOn [] = false)
    (hthrow : (env d).throwsOn [.lit rv] = true) :
    (Strict.get env (f + 2) st (.cls c)).1 = .error (.ctorThrew d) := by
  simp [Strict.get, Strict.prepOne, prepList, constructNew, typeofFunction,
    truthy, hic, hid, hrc, hrd, hprobe, hthrow]

/-- Claim C2 witness: the concrete two-class state `stB` under `envB`. -/
theorem C2_witness :
    alookup stB.instances (.cls 0) = none ∧
    alookup stB.instances (.cls 1) = none ∧
    alookup stB.registry (.cls 0) = some [.cls 1] ∧
    alookup stB.registry (.cls 1) = some [.lit (.int 7)] ∧
    (envB 1).throwsOn [] = false ∧
    (envB 1).throwsOn [.lit (.int 7)] = true ∧
    (Strict.get envB 2 stB (.cls 0)).1 = .error (.ctorThrew 1) :=
  ⟨by decide, by decide, by decide, by decide, by decide, by decide,
   C2_thm envB 0 stB 0 1 (.int 7) (by decide) (by decide) (by decide)
     (by decide) (by decide) (by decide)⟩

/-- Claim C3: after a successful `addStatic` (the spec's
`registerSingleton`), `resolve` returns the one stored instance — the same
heap reference on every call, whatever recipe may also be registered for
that identity (the singleton is checked first and takes precedence) — the
registry state is returned unchanged so repeated calls keep answering
identically, resolution still returns that same reference after the
instance is mutated, and the mutation is visible through it. -/
theorem C3_thm (env : Env) (fuel : Nat) (st0 st : State) (c : Nat)
    (args : List Value)
    (h : Container.addStatic env st0 (.cls c) args = (.ok (), st)) :
    alookup st.instances (.cls c) = some (.obj st0.heap.length) ∧
    Permissive.get env (fuel + 1) st (.cls c)
      = (.ok (.obj st0.heap.length), st) ∧
    (∀ i w, Permissive.get env (fuel + 1) (setField st st0.heap.length i w)
        (.cls c)
      = (.ok (.obj st0.heap.length), setField st st0.heap.length i w)) ∧
    (∀ i w, i < args.length →
      readField (setField st st0.heap.length i w) st0.heap.length i
        = some w) := by
  unfold Container.addStatic at h
  split at h
  · simp at h
  · rename_i v st1 heq
    simp only [Prod.mk.injEq] at h
    obtain ⟨-, hst⟩ := h
    obtain ⟨c', hc', hth, hv, hst1⟩ := constructNew_ok env st0 (.cls c) args v st1 heq
    injection hc' with e
    subst e
    subst hv
    subst hst1
    subst hst
    refine ⟨alookup_mset_self _ _ _, ?_, ?_, ?_⟩
    · exact Permissive.get_singleton_hit env fuel _ (.cls c)
        (.obj st0.heap.length) (alookup_mset_self _ _ _) rfl
    · intro i w
      refine Permissive.get_singleton_hit env fuel _ (.cls c)
        (.obj st0.heap.length) ?_ rfl
      rw [setField_instances]
      exact alookup_mset_self _ _ _
    · intro i w hi
      exact readField_setField_self _ st0.heap.length i w ⟨c, args⟩
        (List.getElem?_concat_length _ _) hi

/-- Claim C3 witness: `addStatic(Main, "foo")` over `stC3a` (where `Main`
also has recipe `["bar"]`). -/
theorem C3_witness :
    Container.addStatic envA stC3a (.cls 0) [.lit (.str "foo")]
      = (.ok (), stC3b) ∧
    (alookup stC3b.instances (.cls 0) = some (.obj 0) ∧
     Permissive.get envA 1 stC3b (.cls 0) = (.ok (.obj 0), stC3b) ∧
     (∀ i w, Permissive.get envA 1 (setField stC3b 0 i w) (.cls 0)
       = (.ok (.obj 0), setField stC3b 0 i w)) ∧
     (∀ i w, i < ([Value.lit (.str "foo")]).length →
       readField (setField stC3b 0 i w) 0 i = some w)) :=
  ⟨by decide, C3_thm envA 0 stC3a stC3b 0 [.lit (.str "foo")] (by decide)⟩

/-- Claim C4: whenever the strict `get` succeeds on a recipe-registered
identity (no singleton bound), the returned value is a fresh heap object of
that class whose fields are exactly the prepared recipe arguments, in recipe
order: each argument was run through `prepOne` (so a recipe argument that is
a registered identity is replaced by the result of recursively resolving
it), non-function arguments are delivered unchanged, and every class-valued
argument that passes the zero-argument constructibility probe is replaced by
a resolved heap instance — never by the identity itself. -/
theorem C4_thm (env : Env) (f : Nat) (st : State) (k v : Value) (st' : State)
    (hG : GoodInstances st)
    (hsing : alookup st.instances k = none)
    (h : Strict.get env (f + 1) st k = (.ok v, st')) :
    ∃ c args vs a, k = .cls c ∧ alookup st.registry k = some args ∧
      v = .obj a ∧ st'.heap[a]? = some ⟨c, vs⟩ ∧
      List.Forall₂ (fun arg w =>
        (∃ s1 s2, GoodInstances s1 ∧
          Strict.prepOne (Strict.get env f) env s1 arg = (.ok w, s2)) ∧
        (typeofFunction arg = false → w = arg) ∧
        (∀ d, arg = .cls d → (env d).throwsOn [] = false →
          ∃ b, w = .obj b)) args vs := by
  simp only [Strict.get] at h
  split at h
  · rename_i ht
    rw [hsing] at ht
    simp [truthy] at ht
  · split at h
    · simp at h
    · rename_i args hreg
      split at h
      · simp at h
      · rename_i vs s1 heq2
        obtain ⟨c, hk, hth, hv, hst'⟩ := constructNew_ok env s1 k vs v st' h
        subst hk
        subst hv
        subst hst'
        refine ⟨c, args, vs, s1.heap.length, rfl, hreg,
          rfl, List.getElem?_concat_length _ _, ?_⟩
        have hpres : ∀ s a r s',
            Strict.prepOne (Strict.get env f) env s a = (r, s') →
            GoodInstances s → GoodInstances s' := by
          intro s a r s' hp hGs
          have hts := (Strict.prepOne_tables (Strict.get env f) env
            (Strict.get_tables env f) s a).2
          rw [hp] at hts
          exact GoodInstances_eq s s' hts hGs
        have hf2 := prepList_forall2 (Strict.prepOne (Strict.get env f) env)
          GoodInstances hpres st args vs s1 hG heq2
        refine hf2.imp ?_
        intro arg w hw
        obtain ⟨sa, sb, hGa, hpre⟩ := hw
        have hchar := Strict.prepOne_char env f sa arg w sb hGa hpre
        exact ⟨⟨sa, sb, hGa, hpre⟩, hchar.1, hchar.2⟩

/-- Claim C4 witness: resolving `Main` (recipe `[Dep, 5]`, `Dep` registered
with recipe `[]`) from `stC4`. -/
theorem C4_witness :
    GoodInstances stC4 ∧
    alookup stC4.instances (.cls 0) = none ∧
    Strict.get envA 2 stC4 (.cls 0) = (.ok (.obj 2), stC4R) ∧
    (∃ c args vs a, (Value.cls 0) = .cls c ∧
      alookup stC4.registry (.cls 0) = some args ∧
      (Value.obj 2) = .obj a ∧ stC4R.heap[a]? = some ⟨c, vs⟩ ∧
      List.Forall₂ (fun arg w =>
        (∃ s1 s2, GoodInstances s1 ∧
          Strict.prepOne (Strict.get envA 1) envA s1 arg = (.ok w, s2)) ∧
        (typeofFunction arg = false → w = arg) ∧
        (∀ d, arg = .cls d → (envA d).throwsOn [] = false →
          ∃ b, w = .obj b)) args vs) :=
  ⟨fun k v hv => by simp [alookup] at hv, by decide, by decide,
   C4_thm envA 1 stC4 (.cls 0) (.obj 2) stC4R
     (fun k v hv => by simp [alookup] at hv) (by decide) (by decide)⟩

/-- Claim C5: for an identity with no singleton binding (here
recipe-registered), two successive successful permissive resolves return
distinct heap objects — distinct addresses — and mutating either instance's
fields leaves every field of the other unchanged. -/
theorem C5_thm (env : Env) (f : Nat) (st : State) (k : Value)
    (args : List Value) (v1 : Value) (st1 : State) (v2 : Value) (st2 : State)
    (hsing : alookup st.instances k = none)
    (hreg : alookup st.registry k = some args)
    (h1 : Permissive.get env f st k = (.ok v1, st1))
    (h2 : Permissive.get env f st1 k = (.ok v2, st2)) :
    ∃ a1 a2, v1 = .obj a1 ∧ v2 = .obj a2 ∧ a1 ≠ a2 ∧
      (∀ i j w, readField (setField st2 a1 i w) a2 j = readField st2 a2 j) ∧
      (∀ i j w, readField (setField st2 a2 i w) a1 j
        = readField st2 a1 j) := by
  cases f with
  | zero => simp [Permissive.get] at h1
  | succ f =>
    have decomp : ∀ (s : State) (w : Value) (s' : State),
        alookup s.instances k = none →
        Permissive.get env (f + 1) s k = (.ok w, s') →
        ∃ a, w = .obj a ∧ a < s'.heap.length ∧ s.heap.length ≤ a := by
      intro s w s' hs hg
      simp only [Permissive.get] at hg
      split at hg
      · rename_i ht
        rw [hs] at ht
        simp [truthy] at ht
      · split at hg
        · simp at hg
        · rename_i vs sp heq
          obtain ⟨c, hk, hth, hv, hst⟩ := constructNew_ok env sp k vs w s' hg
          subst hv
          refine ⟨sp.heap.length, rfl, ?_, ?_⟩
          · subst hst
            simp
          · have hm := prepList_heap_le
              (Permissive.prepOne (Permissive.get env f) env)
              (Permissive.prepOne_heap_le (Permissive.get env f) env
                (Permissive.get_heap_le env f)) s
              ((alookup s.registry k).getD [])
            rw [heq] at hm
            exact hm
    obtain ⟨a1, hv1, ha1lt, -⟩ := decomp st v1 st1 hsing h1
    have htab := (Permissive.get_tables_p env (f + 1) st k).2
    rw [h1] at htab
    obtain ⟨a2, hv2, -, ha2ge⟩ := decomp st1 v2 st2
      (by rw [htab]; exact hsing) h2
    have hne : a1 ≠ a2 := by omega
    exact ⟨a1, a2, hv1, hv2, hne,
      fun i j w => readField_setField_ne st2 a1 a2 i j w hne,
      fun i j w => readField_setField_ne st2 a2 a1 i j w hne.symm⟩

/-- Claim C5 witness: resolving `Main` (recipe `[3]`) twice from `stC5`. -/
theorem C5_witness :
    alookup stC5.instances (.cls 0) = none ∧
    alookup stC5.registry (.cls 0) = some [.lit (.int 3)] ∧
    Permissive.get envA 1 stC5 (.cls 0) = (.ok (.obj 0), stC5a) ∧
    Permissive.get envA 1 stC5a (.cls 0) = (.ok (.obj 1), stC5b) ∧
    (∃ a1 a2, (Value.obj 0) = .obj a1 ∧ (Value.obj 1) = .obj a2 ∧ a1 ≠ a2 ∧
      (∀ i j w, readField (setField stC5b a1 i w) a2 j
        = readField stC5b a2 j) ∧
      (∀ i j w, readField (setField stC5b a2 i w) a1 j
        = readField stC5b a1 j)) :=
  ⟨by decide, by decide, by decide, by decide,
   C5_thm envA 1 stC5 (.cls 0) [.lit (.int 3)] (.obj 0) stC5a (.obj 1) stC5b
     (by decide) (by decide) (by decide) (by decide)⟩

/-- Claim C7: after `add(C, a)` followed by `appendArgs(C, x)` (strict
variant), the append succeeds, the stored recipe is `[a, x]` — the new
argument appended at the end — and `resolve(C)` constructs `C` with the
argument list `(a, x)` positionally (stated for non-function arguments, so
preparation is the identity on them). -/
theorem C7_thm (env : Env) (f : Nat) (st : State) (c : Nat) (a x : Value)
    (hsing : alookup st.instances (.cls c) = none)
    (hfa : typeofFunction a = false) (hfx : typeofFunction x = false)
    (hok : (env c).throwsOn [a, x] = false) :
    (Strict.appendArgs env (Container.add st (.cls c) [a]) (.cls c) [x]).1
      = .ok () ∧
    alookup ((Strict.appendArgs env (Container.add st (.cls c) [a])
      (.cls c) [x]).2).registry (.cls c) = some [a, x] ∧
    Strict.get env (f + 1)
      ((Strict.appendArgs env (Container.add st (.cls c) [a]) (.cls c) [x]).2)
      (.cls c)
      = (.ok (.obj st.heap.length),
         { (Strict.appendArgs env (Container.add st (.cls c) [a])
             (.cls c) [x]).2 with heap := st.heap ++ [⟨c, [a, x]⟩] }) := by
  have e1 : Strict.appendArgs env (Container.add st (.cls c) [a]) (.cls c) [x]
      = (.ok (), { st with
          registry := mset (mset st.registry (.cls c) [a]) (.cls c) [a, x] }) := by
    unfold Strict.appendArgs Container.add
    simp [alookup_mset_self]
  have pa : ∀ s, Strict.prepOne (Strict.get env f) env s a = (.ok a, s) :=
    fun s => Strict.prepOne_passthrough _ env s a hfa
  have px : ∀ s, Strict.prepOne (Strict.get env f) env s x = (.ok x, s) :=
    fun s => Strict.prepOne_passthrough _ env s x hfx
  rw [e1]
  refine ⟨rfl, alookup_mset_self _ _ _, ?_⟩
  simp [Strict.get, hsing, alookup_mset_self, prepList, pa, px,
    constructNew, hok, truthy]

/-- Claim C7 witness: `add(Main, "foo")` then `appendArgs(Main, 42)` on the
empty container. -/
theorem C7_witness :
    alookup stEmpty.instances (.cls 0) = none ∧
    typeofFunction (.lit (.str "foo")) = false ∧
    typeofFunction (.lit (.int 42)) = false ∧
    (envA 0).throwsOn [.lit (.str "foo"), .lit (.int 42)] = false ∧
    ((Strict.appendArgs envA (Container.add stEmpty (.cls 0)
        [.lit (.str "foo")]) (.cls 0) [.lit (.int 42)]).1 = .ok () ∧
     alookup ((Strict.appendArgs envA (Container.add stEmpty (.cls 0)
        [.lit (.str "foo")]) (.cls 0) [.lit (.int 42)]).2).registry (.cls 0)
       = some [.lit (.str "foo"), .lit (.int 42)] ∧
     Strict.get envA 1
       ((Strict.appendArgs envA (Container.add stEmpty (.cls 0)
          [.lit (.str "foo")]) (.cls 0) [.lit (.int 42)]).2) (.cls 0)
       = (.ok (.obj 0),
          { (Strict.appendArgs envA (Container.add stEmpty (.cls 0)
              [.lit (.str "foo")]) (.cls 0) [.lit (.int 42)]).2 with
            heap := stEmpty.heap ++ [⟨0, [.lit (.str "foo"),
              .lit (.int 42)]⟩] })) :=
  ⟨by decide, by decide, by decide, by decide,
   C7_thm envA 0 stEmpty 0 (.lit (.str "foo")) (.lit (.int 42))
     (by decide) (by decide) (by decide) (by decide)⟩

/-- Claim C8: a plain non-constructible function in a recipe (its
zero-argument probe raises `TypeError`) is delivered by `prepOne` exactly as
it was stored — the same function value, hence still callable — every
non-function value (literal or object reference) likewise passes through
unchanged, and end to end the strict `get` constructs the target with the
untouched function and literal in their recipe positions. -/
theorem C8_thm (env : Env) (f : Nat) (st : State) (c fn : Nat) (l : Lit)
    (hsing : alookup st.instances (.cls c) = none)
    (hreg : alookup st.registry (.cls c) = some [.func fn, .lit l])
    (hok : (env c).throwsOn [.func fn, .lit l] = false) :
    (∀ (recur : State → Value → Except Err Value × State) (s : State),
      Strict.prepOne recur env s (.func fn) = (.ok (.func fn), s)) ∧
    (∀ (recur : State → Value → Except Err Value × State) (s : State)
      (v : Value), typeofFunction v = false →
      Strict.prepOne recur env s v = (.ok v, s)) ∧
    Strict.get env (f + 1) st (.cls c)
      = (.ok (.obj st.heap.length),
         { st with heap := st.heap ++ [⟨c, [.func fn, .lit l]⟩] }) := by
  refine ⟨fun recur s => Strict.prepOne_func recur env s fn,
    fun recur s v hv => Strict.prepOne_passthrough recur env s v hv, ?_⟩
  have pf : ∀ s, Strict.prepOne (Strict.get env f) env s (.func fn)
      = (.ok (.func fn), s) := fun s => Strict.prepOne_func _ env s fn
  have pl : ∀ s, Strict.prepOne (Strict.get env f) env s (.lit l)
      = (.ok (.lit l), s) :=
    fun s => Strict.prepOne_passthrough _ env s (.lit l) rfl
  simp [Strict.get, hsing, hreg, prepList, pf, pl, constructNew, hok, truthy]

/-- Claim C8 witness: `Main` with recipe `[callback 9, "cb"]` in `stC8`. -/
theorem C8_witness :
    alookup stC8.instances (.cls 0) = none ∧
    alookup stC8.registry (.cls 0) = some [.func 9, .lit (.str "cb")] ∧
    (envA 0).throwsOn [.func 9, .lit (.str "cb")] = false ∧
    ((∀ (recur : State → Value → Except Err Value × State) (s : State),
      Strict.prepOne recur envA s (.func 9) = (.ok (.func 9), s)) ∧
     (∀ (recur : State → Value → Except Err Value × State) (s : State)
       (v : Value), typeofFunction v = false →
       Strict.prepOne recur envA s v = (.ok v, s)) ∧
     Strict.get envA 1 stC8 (.cls 0)
       = (.ok (.obj 0),
          { stC8 with heap := stC8.heap ++ [⟨0, [.func 9,
            .lit (.str "cb")]⟩] })) :=
  ⟨by decide, by decide, by decide,
   C8_thm envA 0 stC8 0 9 (.str "cb")
     (by decide) (by decide) (by decide)⟩
